import Mathlib

/-!
The pip worker, `internal/modules/pip/worker/worker.go`.

A shallow embedding of the pip worker of spdx-sbom-generator: the virtual
environment locator (`SearchVenv` and its three strategies), the requirement
gate (`IsRequirementMeet`) and the checksum resolver (`getPackageChecksum`,
`getWheelDistributionLastTag`), followed by the properties of the specification
that were checked against them.

Conventions of the embedding.

* A Go `string` is a `Str`, a list of Unicode code points.
* Everything the code reads from outside itself (the process environment, the
  existence probe `helper.Exists`, `filepath.Join`, `filepath.Abs`, the file
  tree `filepath.Walk` explores, the lines a `bufio.Scanner` yields) is a field
  of `World`; the functions of the package take the world as an argument.
* A Go call either returns, or ends the process through `log.Fatal`, or
  panics; `Outcome` keeps the three apart.
* The two pointers written by the walk callback (`*files`, `*folderpath`) are
  a pair threaded through the walk.

What the development establishes.

* The active-environment strategy (C3), the conventional directories (C5)
  and the requirement gate (C6) behave as specified.
* The recursive scan returns the first directory with `pyvenv.cfg` provided
  no access error precedes it (C4); the invariant "found iff name and path
  are non-empty" holds in one direction only (C2); the tag of a wheel line is
  its second colon-separated piece, not everything after the first colon (C8,
  C9).
* Two defects: a walk that finishes without a match is reported as
  found=true (C1), and a wheel line that is "tag" without a colon makes the
  tag extraction panic (C7, C10).
-/

namespace Worker

/-! ## Strings -/

/-- A Go string, as the sequence of its code points. -/
abbrev Str := List Char

/-- Go `strings.Split(s, sep)` for a separator of one character: the pieces of
`s` between the occurrences of `sep`; always at least one piece. -/
def split (sep : Char) : Str → List Str
  | [] => [[]]
  | c :: cs =>
    if c = sep then [] :: split sep cs
    else
      match split sep cs with
      | [] => [[c]]
      | piece :: pieces => (c :: piece) :: pieces

/-- Lower-casing of one code point. Go lower-cases every Unicode letter; the
letters outside ASCII are left alone here, which does not change any
comparison with "tag", because no code point outside ASCII lower-cases to
`t`, `a` or `g`. -/
def toLowerRune (c : Char) : Char :=
  if 65 ≤ c.toNat ∧ c.toNat ≤ 90 then Char.ofNat (c.toNat + 32) else c

/-- Go `strings.ToLower`. -/
def ToLower (s : Str) : Str := s.map toLowerRune

/-- Go `unicode.IsSpace`: the code points with the White_Space property. -/
def isSpace (c : Char) : Bool :=
  let n := c.toNat
  (9 ≤ n && n ≤ 13) || n == 32 || n == 0x85 || n == 0xA0 || n == 0x1680 ||
  (0x2000 ≤ n && n ≤ 0x200A) || n == 0x2028 || n == 0x2029 || n == 0x202F ||
  n == 0x205F || n == 0x3000

/-- Go `strings.TrimSpace`: drops the leading and the trailing white space. -/
def TrimSpace (s : Str) : Str :=
  ((s.dropWhile isSpace).reverse.dropWhile isSpace).reverse

/-- Go `strings.Compare`: 0 when equal, -1 or +1 by lexicographic order. -/
def Compare (a b : Str) : Int :=
  if a = b then 0 else if a < b then -1 else 1

/-! ## Constants of the package -/

def manifestSetupPy : Str := "setup.py".toList
def manifestSetupCfg : Str := "setup.cfg".toList
def ModuleDotVenv : Str := ".venv".toList
def ModuleVenv : Str := "venv".toList
def PyvenvCfg : Str := "pyvenv.cfg".toList
def VirtualEnv : Str := "VIRTUAL_ENV".toList

/-! ## Outcomes, errors, the world -/

/-- The error values the package meets. -/
inductive GoError where
  /-- the package's `errorWheelFileNotFound` -/
  | errorWheelFileNotFound
  /-- the package's `errorUnableToOpenWheelFile` -/
  | errorUnableToOpenWheelFile
  /-- the sentinel `io.EOF` -/
  | EOF
  /-- the sentinel `filepath.SkipDir` -/
  | SkipDir
  /-- the sentinel `filepath.SkipAll` -/
  | SkipAll
  /-- an error reported by the operating system (lstat, readdir) -/
  | os (msg : Str)
  deriving DecidableEq

/-- How a call ends. -/
inductive Outcome (α : Type) where
  /-- the call returns `a` -/
  | returned (a : α)
  /-- exit through `log.Fatal`: the message is logged and the process exits with status 1 -/
  | fatal (err : GoError)
  /-- a run-time panic -/
  | panic (msg : Str)
  deriving DecidableEq

/-- Sequencing of calls: a fatal exit or a panic ends the caller as well. -/
def Outcome.bind {α β : Type} : Outcome α → (α → Outcome β) → Outcome β
  | .returned a, f => f a
  | .fatal e, _ => .fatal e
  | .panic m, _ => .panic m

/-- What `os.FileInfo` offers to this package: `Name()` and `IsDir()`. -/
structure FileInfo where
  name : Str
  isDir : Bool
  deriving DecidableEq

/-- An entry of the file tree as `filepath.Walk` meets it. `name` is what
`Name()` reports for the entry (for the children of a directory, the name
`readDirNames` listed). -/
inductive Node where
  /-- lstat succeeds, not a directory -/
  | file (name : Str)
  /-- lstat succeeds, a directory whose names can be read; `entries` in the
  order `readDirNames` returns them (lexical order) -/
  | dir (name : Str) (entries : List Node)
  /-- lstat succeeds, a directory whose names cannot be read -/
  | unreadableDir (name : Str) (err : Str)
  /-- lstat fails on the entry -/
  | lstatFails (name : Str) (err : Str)

/-- The name of an entry. -/
def Node.name : Node → Str
  | .file n => n
  | .dir n _ => n
  | .unreadableDir n _ => n
  | .lstatFails n _ => n

/-- The entry is one lstat reports as something other than a directory. -/
def Node.isFile : Node → Bool
  | .file _ => true
  | _ => false

/-- Everything outside the package that its functions read. -/
structure World where
  /-- the value `os.Getenv` gives: the empty string for an unset variable -/
  getenv : Str → Str
  /-- the existence probe `helper.Exists` -/
  helperExists : Str → Bool
  /-- the result of `filepath.Join` on two elements -/
  join : Str → Str → Str
  /-- the result of `filepath.Abs`, whose error the code drops: the empty string on error -/
  abs : Str → Str
  /-- the file tree found at a path (what lstat and readDirNames report) -/
  tree : Str → Node
  /-- the result of `os.Open` followed by a `bufio.Scanner` over the file: `none` when the
  file cannot be opened, else the texts `scanner.Text()` yields, in order -/
  openLines : Str → Option (List Str)

/-! ## IsRequirementMeet -/

/-- Go `IsRequirementMeet`; `LoadModules`, the manifest loader of the package, is
a parameter (`Module` is the type of what it returns). -/
def IsRequirementMeet {Module : Type} (LoadModules : Str → List Module)
    (root : Bool) (data : Str) : Bool :=
  let _modules := LoadModules data
  if root && _modules.length == 1 then true
  else if !root && _modules.length > 3 then true
  else false

/-! ## The virtual environment locator -/

/-- Go `GetVenFromEnvs`. Indexing `splitstr[len(splitstr)-1]` panics on an empty
slice. -/
def GetVenFromEnvs (w : World) : Outcome (Bool × Str × Str) :=
  let venvfullpath := w.getenv VirtualEnv
  let splitstr := split '/' venvfullpath
  match splitstr.getLast? with
  | none => .panic "index out of range [-1]".toList
  | some venv =>
    if venvfullpath.length > 0 then .returned (true, venv, venvfullpath)
    else .returned (false, venv, venvfullpath)

/-- The loop of `HasDefaultVenv` over the remaining module names. -/
def HasDefaultVenv.loop (w : World) (path : Str) : List Str → Bool × Str × Str
  | [] => (false, [], [])
  | m :: modules =>
    let venvfullpath := w.join path m
    if w.helperExists (w.join path m) then (true, m, venvfullpath)
    else HasDefaultVenv.loop w path modules

/-- Go `HasDefaultVenv`. -/
def HasDefaultVenv (w : World) (path : Str) : Bool × Str × Str :=
  HasDefaultVenv.loop w path [ModuleDotVenv, ModuleVenv]

/-- Go `HasPyvenvCfg`. -/
def HasPyvenvCfg (w : World) (path : Str) : Bool :=
  w.helperExists (w.join path PyvenvCfg)

/-- A `filepath.WalkFunc` over a state `σ` (the variables the closure
captured): path, info (nil when lstat failed), the error met, the state; it
returns the new state and its error value. -/
abbrev WalkFunc (σ : Type) :=
  Str → Option FileInfo → Option GoError → σ → Outcome (σ × Option GoError)

/-- Go `ScanPyvenvCfg(files, folderpath)`: the state is `(*files, *folderpath)`. -/
def ScanPyvenvCfg (w : World) : WalkFunc (Str × Str) := fun path info err st =>
  match err with
  | some e => .fatal e
  | none =>
    match info with
    | none => .panic "nil pointer dereference".toList
    | some info =>
      if info.isDir then
        if HasPyvenvCfg w path then
          .returned ((info.name, w.abs path), some .EOF)
        else .returned (st, none)
      else .returned (st, none)

mutual
/-- Go `filepath.walk` on one entry (for an entry whose lstat failed, the call
of the walk function that the caller of `walk` makes in its place). -/
def walk {σ : Type} (join : Str → Str → Str) (walkFn : WalkFunc σ) (path : Str) :
    Node → σ → Outcome (σ × Option GoError)
  | .lstatFails _ e, st => walkFn path none (some (.os e)) st
  | .file name, st => walkFn path (some ⟨name, false⟩) none st
  | .unreadableDir name e, st => walkFn path (some ⟨name, true⟩) (some (.os e)) st
  | .dir name entries, st =>
    match walkFn path (some ⟨name, true⟩) none st with
    | .returned (st1, none) => walkEntries join walkFn path entries st1
    | r => r
/-- The loop of `filepath.walk` over the names of a directory. An error other
than `SkipDir` ends the walk; so does `SkipDir` from a non-directory. -/
def walkEntries {σ : Type} (join : Str → Str → Str) (walkFn : WalkFunc σ) (path : Str) :
    List Node → σ → Outcome (σ × Option GoError)
  | [], st => .returned (st, none)
  | n :: rest, st =>
    match walk join walkFn (join path n.name) n st with
    | .returned (st1, none) => walkEntries join walkFn path rest st1
    | .returned (st1, some err) =>
      if n.isFile || err != GoError.SkipDir then .returned (st1, some err)
      else walkEntries join walkFn path rest st1
    | r => r
end

/-- Go `filepath.Walk`. -/
def Walk {σ : Type} (w : World) (root : Str) (walkFn : WalkFunc σ) (st : σ) :
    Outcome (σ × Option GoError) :=
  match walk w.join walkFn root (w.tree root) st with
  | .returned (st1, some .SkipDir) => .returned (st1, none)
  | .returned (st1, some .SkipAll) => .returned (st1, none)
  | r => r

/-- Go `SearchVenv`. -/
def SearchVenv (w : World) (path : Str) : Outcome (Bool × Str × Str) :=
  (GetVenFromEnvs w).bind fun (state, venv, venvfullpath) =>
  if state then .returned (true, venv, venvfullpath)
  else
    let (state, venv, venvfullpath) := HasDefaultVenv w path
    if state then .returned (state, venv, venvfullpath)
    else
      (Walk w path (ScanPyvenvCfg w) (venv, venvfullpath)).bind
        fun ((venv, venvfullpath), err) =>
      let err := if err = some .EOF then none else err
      if err = none then .returned (true, venv, venvfullpath)
      else .returned (false, venv, venvfullpath)

/-- Go `IsValidRootModule`. -/
def IsValidRootModule (w : World) (path : Str) : Bool :=
  [manifestSetupCfg, manifestSetupPy].any fun m => w.helperExists (w.join path m)

/-! ## The checksum resolver -/

/-- The body of the scanning loop of `getWheelDistributionLastTag` on one
text: the new value of `lasttag`. Indexing `res` panics out of range. -/
def scanText (lasttag : Str) (text : Str) : Outcome Str :=
  let res := split ':' text
  match res[0]? with
  | none => .panic "index out of range [0]".toList
  | some key =>
    if Compare (ToLower key) "tag".toList = 0 then
      match res[1]? with
      | none => .panic "index out of range [1] with length 1".toList
      | some value => .returned (TrimSpace value)
    else .returned lasttag

/-- The loop `for scanner.Scan() { ... }` over the texts still to come. -/
def scanLoop : Str → List Str → Outcome Str
  | lasttag, [] => .returned lasttag
  | lasttag, text :: rest => (scanText lasttag text).bind fun t => scanLoop t rest

/-- Go `getWheelDistributionLastTag`: the pair `(tag, err)` it returns. -/
def getWheelDistributionLastTag (w : World) (packageWheelPath : Str) :
    Outcome (Str × Option GoError) :=
  if !w.helperExists packageWheelPath then
    .returned ([], some .errorWheelFileNotFound)
  else
    match w.openLines packageWheelPath with
    | none => .returned ([], some .errorUnableToOpenWheelFile)
    | some texts => (scanLoop [] texts).bind fun lasttag => .returned (lasttag, none)

/-- One call of the remote index lookup, `getPypiPackageChecksum`. -/
structure LookupCall where
  packagename : Str
  packageJsonURL : Str
  checkfortag : Bool
  wheeltag : Str
  deriving DecidableEq

/-- Go `getPackageChecksum`. The remote lookup `getPypiPackageChecksum` of the
package is a parameter; next to the checksum the embedding returns the calls
made to it, in order. -/
def getPackageChecksum {CheckSum : Type} (w : World)
    (getPypiPackageChecksum : Str → Str → Bool → Str → CheckSum)
    (packagename packageJsonURL packageWheelPath : Str) :
    Outcome (CheckSum × List LookupCall) :=
  let checkfortag := true
  (getWheelDistributionLastTag w packageWheelPath).bind fun (wheeltag, err) =>
  let checkfortag := if err ≠ none then false else checkfortag
  let checkfortag := if checkfortag && wheeltag.length == 0 then false else checkfortag
  let checksum := getPypiPackageChecksum packagename packageJsonURL checkfortag wheeltag
  .returned (checksum, [⟨packagename, packageJsonURL, checkfortag, wheeltag⟩])

/-! ## Vocabulary of the specification

The traversal order of the walk, and the parts of a `key: value` line, stated
on their own so that the properties below can speak of "the first directory
in traversal order" and of "the value of a tag line". -/

/-- What `IsDir()` reports for an entry (false when lstat failed). -/
def Node.isDir : Node → Bool
  | .dir _ _ => true
  | .unreadableDir _ _ => true
  | _ => false

/-- The walk meets an access error at the entry: lstat fails on it, or it is a
directory whose names cannot be read. -/
def Node.accessError : Node → Bool
  | .unreadableDir _ _ => true
  | .lstatFails _ _ => true
  | _ => false

mutual
/-- The entries below and including an entry, each with the path the walk
builds for it, in depth-first pre-order, directories in the order of their
names. -/
def preorder (join : Str → Str → Str) (path : Str) : Node → List (Str × Node)
  | .dir name entries => (path, .dir name entries) :: preorderEntries join path entries
  | .file name => [(path, .file name)]
  | .unreadableDir name e => [(path, .unreadableDir name e)]
  | .lstatFails name e => [(path, .lstatFails name e)]
/-- The pre-order of the entries of a directory, one after the other. -/
def preorderEntries (join : Str → Str → Str) (path : Str) : List Node → List (Str × Node)
  | [] => []
  | n :: rest => preorder join (join path n.name) n ++ preorderEntries join path rest
end

/-- The call of the walk function that the walk makes for one entry. -/
def visit {σ : Type} (walkFn : WalkFunc σ) (path : Str) :
    Node → σ → Outcome (σ × Option GoError)
  | .lstatFails _ e, st => walkFn path none (some (.os e)) st
  | .file name, st => walkFn path (some ⟨name, false⟩) none st
  | .unreadableDir name e, st => walkFn path (some ⟨name, true⟩) (some (.os e)) st
  | .dir name _, st => walkFn path (some ⟨name, true⟩) none st

/-- The walk function called on a sequence of entries in turn, until a call
does not return a nil error. -/
def visitAll {σ : Type} (walkFn : WalkFunc σ) :
    List (Str × Node) → σ → Outcome (σ × Option GoError)
  | [], st => .returned (st, none)
  | (p, n) :: rest, st =>
    match visit walkFn p n st with
    | .returned (st1, none) => visitAll walkFn rest st1
    | r => r

/-- The entry is a directory that contains `pyvenv.cfg`, as the existence
probe sees it. -/
def containsCfg (w : World) (e : Str × Node) : Bool :=
  e.2.isDir && HasPyvenvCfg w e.1

/-- The text before the first colon of a line (the whole line when it has no
colon): the key of a `key: value` line. -/
def keyOf (text : Str) : Str := text.takeWhile (· ≠ ':')

/-- Everything after the first colon of a line. -/
def afterFirstColon (text : Str) : Str := (text.dropWhile (· ≠ ':')).drop 1

/-- The text between the first colon of a line and its next colon (or the end
of the line). -/
def secondField (text : Str) : Str := (afterFirstColon text).takeWhile (· ≠ ':')

/-- The key of the line is "tag" in some letter case. -/
def isTagKey (text : Str) : Bool := ToLower (keyOf text) == "tag".toList

/-- A line of the form `key: value` whose key is "tag" in some letter case. -/
def isTagLine (text : Str) : Bool := text.contains ':' && isTagKey text

/-- The join used in the examples: the two elements with a slash between
them, which is what `filepath.Join` gives for clean, non-empty elements. -/
def slashJoin (a b : Str) : Str := a ++ '/' :: b

/-! ## Concrete worlds for the examples -/

/-- A world given by the value of `VIRTUAL_ENV`, the paths that exist, the
file tree at the project root and the lines of the wheel file (`none` when it
cannot be opened). Paths are joined with a slash and are already absolute. -/
def mkWorld (venv : Str) (present : List Str) (t : Node) (texts : Option (List Str)) :
    World where
  getenv := fun k => if k = VirtualEnv then venv else []
  helperExists := fun p => present.contains p
  join := slashJoin
  abs := fun p => p
  tree := fun _ => t
  openLines := fun _ => texts

/-- The project root of the examples. -/
def projRoot : Str := "/proj".toList

/-- The wheel metadata path of the examples. -/
def wheelPath : Str := "/site/pkg.dist-info/WHEEL".toList

/-- A project tree without any environment: `/proj/main.py`, `/proj/src/app.py`. -/
def plainTree : Node :=
  .dir "proj".toList [.file "main.py".toList, .dir "src".toList [.file "app.py".toList]]

/-- A project tree with an environment in `/proj/env`, after a directory `/proj/a`. -/
def envTree : Node :=
  .dir "proj".toList
    [.dir "a".toList [.file "x.py".toList],
     .dir "env".toList [.file "pyvenv.cfg".toList]]

/-- The same project, where the directory `/proj/a` cannot be read. -/
def deniedTree : Node :=
  .dir "proj".toList
    [.unreadableDir "a".toList "permission denied".toList,
     .dir "env".toList [.file "pyvenv.cfg".toList]]

/-- No variable, no conventional directory, no `pyvenv.cfg` anywhere. -/
def bareWorld : World :=
  mkWorld [] ["/proj".toList, "/proj/main.py".toList, "/proj/src".toList,
    "/proj/src/app.py".toList] plainTree none

/-- The variable `VIRTUAL_ENV` set to a given value, nothing on disk. -/
def activeWorld (v : Str) : World := mkWorld v [] plainTree none

/-- No variable; both `/proj/.venv` and `/proj/venv` exist. -/
def bothVenvWorld : World :=
  mkWorld [] ["/proj/.venv".toList, "/proj/venv".toList] plainTree none

/-- No variable; only `/proj/venv` exists. -/
def plainVenvWorld : World := mkWorld [] ["/proj/venv".toList] plainTree none

/-- No variable, no conventional directory; `/proj/env/pyvenv.cfg` exists. -/
def nestedEnvWorld : World := mkWorld [] ["/proj/env/pyvenv.cfg".toList] envTree none

/-- As `nestedEnvWorld`, with `/proj/a` unreadable. -/
def deniedWorld : World := mkWorld [] ["/proj/env/pyvenv.cfg".toList] deniedTree none

/-- The variable set to `/home/u/.venv` while the project has `/proj/.venv` on
disk and an unreadable directory in its tree. -/
def activeOverDiskWorld : World :=
  mkWorld "/home/u/.venv".toList ["/proj/.venv".toList, "/proj/env/pyvenv.cfg".toList]
    deniedTree none

/-- A wheel metadata file that exists, opens and has the given lines. -/
def wheelWorld (texts : List Str) : World := mkWorld [] [wheelPath] plainTree (some texts)

/-- A wheel metadata file that does not exist. -/
def noWheelWorld : World := mkWorld [] [] plainTree none

/-- A wheel metadata file that exists and cannot be opened. -/
def lockedWheelWorld : World := mkWorld [] [wheelPath] plainTree none

/-! ## Lemmas on the strings -/

theorem split_ne_nil (sep : Char) (s : Str) : split sep s ≠ [] := by
  induction s with
  | nil => simp [split]
  | cons c cs ih =>
    unfold split
    split_ifs
    · simp
    · cases h : split sep cs with
      | nil => exact absurd h ih
      | cons p ps => simp

theorem split_head (sep : Char) (s : Str) :
    (split sep s)[0]? = some (s.takeWhile (· ≠ sep)) := by
  induction s with
  | nil => simp [split]
  | cons c cs ih =>
    unfold split
    by_cases hc : c = sep
    · simp [hc]
    · cases h : split sep cs with
      | nil => exact absurd h (split_ne_nil sep cs)
      | cons p ps =>
        rw [h] at ih
        simp at ih
        simp [hc, ih]

theorem split_second (sep : Char) (s : Str) :
    (split sep s)[1]? =
      if sep ∈ s then some (((s.dropWhile (· ≠ sep)).drop 1).takeWhile (· ≠ sep)) else none := by
  induction s with
  | nil => simp [split]
  | cons c cs ih =>
    unfold split
    by_cases hc : c = sep
    · have := split_head sep cs
      simp [hc, this]
    · cases h : split sep cs with
      | nil => exact absurd h (split_ne_nil sep cs)
      | cons p ps =>
        rw [h] at ih
        have hne : ¬ sep = c := fun e => hc e.symm
        simp at ih
        simp [hc, hne, ih]

theorem Compare_eq_zero (a b : Str) : Compare a b = 0 ↔ a = b := by
  unfold Compare
  split_ifs <;> simp [*]

/-! ## Lemmas on the last piece of a split -/

theorem split_cons_sep (sep : Char) (cs : Str) : split sep (sep :: cs) = [] :: split sep cs := by
  rw [split, if_pos rfl]

theorem split_cons_ne (sep c : Char) (cs p : Str) (ps : List Str) (hc : c ≠ sep)
    (h : split sep cs = p :: ps) : split sep (c :: cs) = (c :: p) :: ps := by
  rw [split, if_neg hc, h]

theorem split_append_sep (sep : Char) (a b : Str) :
    split sep (a ++ sep :: b) = split sep a ++ split sep b := by
  induction a with
  | nil => rw [List.nil_append, split_cons_sep]; rfl
  | cons c cs ih =>
    by_cases hc : c = sep
    · subst hc
      rw [List.cons_append, split_cons_sep, split_cons_sep, ih, List.cons_append]
    · obtain ⟨p, ps, hp⟩ := List.exists_cons_of_ne_nil (split_ne_nil sep cs)
      rw [List.cons_append, split_cons_ne sep c cs p ps hc hp,
        split_cons_ne sep c (cs ++ sep :: b) p (ps ++ split sep b) hc (by rw [ih, hp]; rfl)]
      rfl

theorem split_snoc_ne (sep c : Char) (a : Str) (hc : c ≠ sep) :
    ∃ init last, split sep a = init ++ [last] ∧
      split sep (a ++ [c]) = init ++ [last ++ [c]] := by
  induction a with
  | nil =>
    refine ⟨[], [], rfl, ?_⟩
    rw [List.nil_append, split_cons_ne sep c [] [] [] hc rfl]
    rfl
  | cons d ds ih =>
    obtain ⟨init, last, h1, h2⟩ := ih
    by_cases hd : d = sep
    · subst hd
      refine ⟨[] :: init, last, ?_, ?_⟩
      · rw [split_cons_sep, h1]; rfl
      · rw [List.cons_append, split_cons_sep, h2]; rfl
    · cases init with
      | nil =>
        refine ⟨[], d :: last, ?_, ?_⟩
        · rw [split_cons_ne sep d ds last [] hd h1]; rfl
        · rw [List.cons_append, split_cons_ne sep d (ds ++ [c]) (last ++ [c]) [] hd h2]; rfl
      | cons i is =>
        refine ⟨(d :: i) :: is, last, ?_, ?_⟩
        · rw [split_cons_ne sep d ds i (is ++ [last]) hd h1]; rfl
        · rw [List.cons_append,
            split_cons_ne sep d (ds ++ [c]) i (is ++ [last ++ [c]]) hd h2]; rfl

/-- The last piece of the split of a non-empty string is empty exactly when
the string ends with the separator. -/
theorem split_getLast_nil_iff (sep : Char) (v name : Str) (hv : v ≠ [])
    (h : (split sep v).getLast? = some name) : name = [] ↔ v.getLast? = some sep := by
  rcases List.eq_nil_or_concat v with hnil | ⟨a, c, rfl⟩
  · exact absurd hnil hv
  · rw [List.concat_eq_append] at h ⊢
    by_cases hc : c = sep
    · subst hc
      rw [split_append_sep] at h
      have hs : split c [] = [[]] := rfl
      rw [hs, List.getLast?_append] at h
      simp at h
      subst h
      simp
    · obtain ⟨init, last, _, h2⟩ := split_snoc_ne sep c a hc
      rw [h2, List.getLast?_append] at h
      simp at h
      subst h
      simp [hc]

/-! ## Lemmas on the tag scan -/

theorem keyOf_eq (text : Str) : (split ':' text)[0]? = some (keyOf text) :=
  split_head ':' text

theorem scanText_tag (lasttag text : Str) (hc : text.contains ':' = true)
    (hk : isTagKey text = true) :
    scanText lasttag text = .returned (TrimSpace (secondField text)) := by
  have hmem : ':' ∈ text := by simpa using hc
  have hkey : ToLower (keyOf text) = "tag".toList := by simpa [isTagKey] using hk
  have h1 := split_second ':' text
  rw [if_pos hmem] at h1
  simp only [scanText, keyOf_eq, h1, hkey, (Compare_eq_zero _ _).2 rfl, if_true]
  rfl

theorem scanText_bare (lasttag text : Str) (hc : text.contains ':' = false)
    (hk : isTagKey text = true) :
    scanText lasttag text = .panic "index out of range [1] with length 1".toList := by
  have hmem : ':' ∉ text := by simpa using hc
  have hkey : ToLower (keyOf text) = "tag".toList := by simpa [isTagKey] using hk
  have h1 := split_second ':' text
  rw [if_neg hmem] at h1
  simp only [scanText, keyOf_eq, h1, hkey, (Compare_eq_zero _ _).2 rfl, if_true]

theorem scanText_other (lasttag text : Str) (hk : isTagKey text = false) :
    scanText lasttag text = .returned lasttag := by
  have hkey : ¬ ToLower (keyOf text) = "tag".toList := by simpa [isTagKey] using hk
  have hcmp : ¬ Compare (ToLower (keyOf text)) "tag".toList = 0 :=
    fun h => hkey ((Compare_eq_zero _ _).1 h)
  simp only [scanText, keyOf_eq, hcmp, if_false]

/-- The scanning loop on lines none of which is a bare "tag": the trimmed
second field of the last tag line, or the tag it started with. -/
theorem scanLoop_eq (texts : List Str)
    (h : ∀ t ∈ texts, isTagKey t = true → t.contains ':' = true) (lasttag : Str) :
    scanLoop lasttag texts = .returned
      (((texts.filter isTagLine).getLast?.map fun l => TrimSpace (secondField l)).getD
        lasttag) := by
  induction texts generalizing lasttag with
  | nil => simp [scanLoop]
  | cons t ts ih =>
    have hts : ∀ t ∈ ts, isTagKey t = true → t.contains ':' = true :=
      fun x hx => h x (List.mem_cons_of_mem _ hx)
    by_cases hk : isTagKey t = true
    · have hc := h t (List.mem_cons_self _ _) hk
      have hl : isTagLine t = true := by rw [isTagLine, hc, hk]; rfl
      rw [scanLoop, scanText_tag lasttag t hc hk, Outcome.bind, ih hts]
      rw [List.filter_cons_of_pos hl]
      cases hf : (ts.filter isTagLine).getLast? with
      | none =>
        have : ts.filter isTagLine = [] := by simpa using hf
        simp [this]
      | some l =>
        have hne : ts.filter isTagLine ≠ [] := by
          intro e; rw [e] at hf; simp at hf
        obtain ⟨x, xs, hx⟩ := List.exists_cons_of_ne_nil hne
        rw [hx] at hf
        rw [hx, List.getLast?_cons_cons, hf]
        simp
    · have hk2 : isTagKey t = false := by simpa using hk
      have hl : ¬ isTagLine t = true := by simp [isTagLine, hk2]
      rw [scanLoop, scanText_other lasttag t hk2, Outcome.bind, ih hts]
      rw [List.filter_cons_of_neg hl]

theorem getWheelDistributionLastTag_readable (w : World) (path : Str) (texts : List Str)
    (hex : w.helperExists path = true) (hopen : w.openLines path = some texts) :
    getWheelDistributionLastTag w path =
      (scanLoop [] texts).bind fun lasttag => .returned (lasttag, none) := by
  simp [getWheelDistributionLastTag, hex, hopen]

/-- A file without any line whose key is "tag" gives the empty tag and no
error. -/
theorem getWheelDistributionLastTag_no_tag (w : World) (path : Str) (texts : List Str)
    (hex : w.helperExists path = true) (hopen : w.openLines path = some texts)
    (hno : ∀ t ∈ texts, isTagKey t = false) :
    getWheelDistributionLastTag w path = .returned ([], none) := by
  have hb : ∀ t ∈ texts, isTagKey t = true → t.contains ':' = true := by
    intro t ht hk
    rw [hno t ht] at hk
    exact absurd hk (by decide)
  have hf : texts.filter isTagLine = [] := by
    rw [List.filter_eq_nil_iff]
    intro t ht
    simp [isTagLine, hno t ht]
  rw [getWheelDistributionLastTag_readable w path texts hex hopen, scanLoop_eq texts hb, hf]
  rfl

/-- The scanning loop panics at the first line that is "tag" without a colon. -/
theorem scanLoop_bare (before after : List Str) (t lasttag : Str)
    (hbefore : ∀ x ∈ before, isTagKey x = true → x.contains ':' = true)
    (hc : t.contains ':' = false) (hk : isTagKey t = true) :
    scanLoop lasttag (before ++ t :: after) =
      .panic "index out of range [1] with length 1".toList := by
  induction before generalizing lasttag with
  | nil => simp [scanLoop, scanText_bare lasttag t hc hk, Outcome.bind]
  | cons b bs ih =>
    have hbs : ∀ x ∈ bs, isTagKey x = true → x.contains ':' = true :=
      fun x hx => hbefore x (List.mem_cons_of_mem _ hx)
    by_cases hb : isTagKey b = true
    · have := scanText_tag lasttag b (hbefore b (List.mem_cons_self _ _) hb) hb
      simp only [List.cons_append, scanLoop, this, Outcome.bind]
      exact ih _ hbs
    · have hb2 : isTagKey b = false := by simpa using hb
      simp only [List.cons_append, scanLoop, scanText_other lasttag b hb2, Outcome.bind]
      exact ih _ hbs

/-- What `getPackageChecksum` does when the tag extraction returns `(tag, err)`:
one call of the lookup, with the flag true exactly when `err` is nil and the
tag is not empty, and the result of that call handed back. -/
theorem getPackageChecksum_of_returned {CheckSum : Type} (w : World)
    (lookup : Str → Str → Bool → Str → CheckSum) (name url path tag : Str)
    (err : Option GoError) (h : getWheelDistributionLastTag w path = .returned (tag, err)) :
    getPackageChecksum w lookup name url path =
      .returned (lookup name url (decide (err = none ∧ tag ≠ [])) tag,
        [⟨name, url, decide (err = none ∧ tag ≠ []), tag⟩]) := by
  simp only [getPackageChecksum, h, Outcome.bind]
  cases err <;> cases tag <;> simp

/-- A missing wheel file: the lookup is called once with the flag false and
the empty tag, and its result is returned. -/
theorem getPackageChecksum_missing {CheckSum : Type} (w : World)
    (lookup : Str → Str → Bool → Str → CheckSum) (name url path : Str)
    (hex : w.helperExists path = false) :
    getPackageChecksum w lookup name url path =
      .returned (lookup name url false [], [⟨name, url, false, []⟩]) := by
  have h : getWheelDistributionLastTag w path =
      .returned ([], some .errorWheelFileNotFound) := by
    simp [getWheelDistributionLastTag, hex]
  rw [getPackageChecksum_of_returned w lookup name url path _ _ h]
  simp

/-- A wheel file that exists and cannot be opened: as for a missing one, with
the other error inside. -/
theorem getPackageChecksum_unopenable {CheckSum : Type} (w : World)
    (lookup : Str → Str → Bool → Str → CheckSum) (name url path : Str)
    (hex : w.helperExists path = true) (hopen : w.openLines path = none) :
    getPackageChecksum w lookup name url path =
      .returned (lookup name url false [], [⟨name, url, false, []⟩]) := by
  have h : getWheelDistributionLastTag w path =
      .returned ([], some .errorUnableToOpenWheelFile) := by
    simp [getWheelDistributionLastTag, hex, hopen]
  rw [getPackageChecksum_of_returned w lookup name url path _ _ h]
  simp

/-! ## Lemmas on the walk -/

theorem visitAll_singleton {σ : Type} (walkFn : WalkFunc σ) (p : Str) (n : Node) (st : σ) :
    visitAll walkFn [(p, n)] st = visit walkFn p n st := by
  simp only [visitAll]
  rcases h : visit walkFn p n st with ⟨s1, _ | e⟩ | e | m <;> rfl

theorem visitAll_append {σ : Type} (walkFn : WalkFunc σ) (a b : List (Str × Node)) (st : σ) :
    visitAll walkFn (a ++ b) st =
      match visitAll walkFn a st with
      | .returned (st1, none) => visitAll walkFn b st1
      | r => r := by
  induction a generalizing st with
  | nil => simp [visitAll]
  | cons x rest ih =>
    obtain ⟨p, n⟩ := x
    simp only [List.cons_append, visitAll]
    rcases h : visit walkFn p n st with ⟨s1, _ | e⟩ | e | m
    · exact ih s1
    · rfl
    · rfl
    · rfl

theorem visit_ne_skip {σ : Type} (walkFn : WalkFunc σ)
    (hfn : ∀ p i e s s1, walkFn p i e s ≠ .returned (s1, some .SkipDir))
    (p : Str) (n : Node) (st s1 : σ) :
    visit walkFn p n st ≠ .returned (s1, some .SkipDir) := by
  cases n <;> exact hfn _ _ _ _ _

theorem visitAll_ne_skip {σ : Type} (walkFn : WalkFunc σ)
    (hfn : ∀ p i e s s1, walkFn p i e s ≠ .returned (s1, some .SkipDir))
    (l : List (Str × Node)) (st s1 : σ) :
    visitAll walkFn l st ≠ .returned (s1, some .SkipDir) := by
  induction l generalizing st with
  | nil => simp [visitAll]
  | cons x rest ih =>
    obtain ⟨p, n⟩ := x
    simp only [visitAll]
    rcases h : visit walkFn p n st with ⟨s2, _ | e⟩ | e | m
    · exact ih s2
    · intro hc
      apply visit_ne_skip walkFn hfn p n st s1
      rw [h]
      exact hc
    · simp
    · simp

mutual
theorem walk_eq_visitAll {σ : Type} (join : Str → Str → Str) (walkFn : WalkFunc σ)
    (hfn : ∀ p i e s s1, walkFn p i e s ≠ .returned (s1, some .SkipDir)) :
    ∀ (n : Node) (path : Str) (st : σ),
      walk join walkFn path n st = visitAll walkFn (preorder join path n) st
  | .lstatFails name e, path, st => by
    rw [preorder, visitAll_singleton]; rfl
  | .file name, path, st => by
    rw [preorder, visitAll_singleton]; rfl
  | .unreadableDir name e, path, st => by
    rw [preorder, visitAll_singleton]; rfl
  | .dir name entries, path, st => by
    rw [preorder, walk, visitAll]
    simp only [visit]
    rcases h : walkFn path (some ⟨name, true⟩) none st with ⟨s1, _ | e⟩ | e | m
    · exact walkEntries_eq_visitAll join walkFn hfn entries path s1
    · rfl
    · rfl
    · rfl
theorem walkEntries_eq_visitAll {σ : Type} (join : Str → Str → Str) (walkFn : WalkFunc σ)
    (hfn : ∀ p i e s s1, walkFn p i e s ≠ .returned (s1, some .SkipDir)) :
    ∀ (entries : List Node) (path : Str) (st : σ),
      walkEntries join walkFn path entries st =
        visitAll walkFn (preorderEntries join path entries) st
  | [], path, st => by simp [walkEntries, preorderEntries, visitAll]
  | n :: rest, path, st => by
    rw [walkEntries, preorderEntries, visitAll_append,
      walk_eq_visitAll join walkFn hfn n (join path n.name) st]
    rcases h : visitAll walkFn (preorder join (join path n.name) n) st with ⟨s1, _ | e⟩ | e | m
    · exact walkEntries_eq_visitAll join walkFn hfn rest path s1
    · have hne : e ≠ GoError.SkipDir := by
        rintro rfl
        exact visitAll_ne_skip walkFn hfn _ _ _ h
      simp [hne]
    · rfl
    · rfl
end

/-! ## Lemmas on the scan for `pyvenv.cfg` -/

theorem ScanPyvenvCfg_ne_skip (w : World) (p : Str) (i : Option FileInfo)
    (e : Option GoError) (s s1 : Str × Str) :
    ScanPyvenvCfg w p i e s ≠ .returned (s1, some .SkipDir) := by
  unfold ScanPyvenvCfg
  cases e with
  | some e => simp
  | none =>
    cases i with
    | none => simp
    | some i =>
      simp only
      split_ifs <;> simp

theorem visit_scan_clean (w : World) (p : Str) (n : Node) (st : Str × Str)
    (hacc : n.accessError = false) (hcfg : containsCfg w (p, n) = false) :
    visit (ScanPyvenvCfg w) p n st = .returned (st, none) := by
  cases n with
  | file name => simp [visit, ScanPyvenvCfg]
  | dir name entries =>
    have : HasPyvenvCfg w p = false := by simpa [containsCfg, Node.isDir] using hcfg
    simp [visit, ScanPyvenvCfg, this]
  | unreadableDir name e => simp [Node.accessError] at hacc
  | lstatFails name e => simp [Node.accessError] at hacc

theorem visit_scan_match (w : World) (p : Str) (n : Node) (st : Str × Str)
    (hacc : n.accessError = false) (hcfg : containsCfg w (p, n) = true) :
    visit (ScanPyvenvCfg w) p n st = .returned ((n.name, w.abs p), some .EOF) := by
  cases n with
  | file name => simp [containsCfg, Node.isDir] at hcfg
  | dir name entries =>
    have : HasPyvenvCfg w p = true := by simpa [containsCfg, Node.isDir] using hcfg
    simp [visit, ScanPyvenvCfg, this, Node.name]
  | unreadableDir name e => simp [Node.accessError] at hacc
  | lstatFails name e => simp [Node.accessError] at hacc

theorem visit_scan_error (w : World) (p : Str) (n : Node) (st : Str × Str)
    (hacc : n.accessError = true) :
    ∃ msg, visit (ScanPyvenvCfg w) p n st = .fatal (.os msg) := by
  cases n with
  | file name => simp [Node.accessError] at hacc
  | dir name entries => simp [Node.accessError] at hacc
  | unreadableDir name e => exact ⟨e, by simp [visit, ScanPyvenvCfg]⟩
  | lstatFails name e => exact ⟨e, by simp [visit, ScanPyvenvCfg]⟩

theorem visitAll_scan_clean (w : World) (l : List (Str × Node)) (st : Str × Str)
    (h : ∀ e ∈ l, e.2.accessError = false ∧ containsCfg w e = false) :
    visitAll (ScanPyvenvCfg w) l st = .returned (st, none) := by
  induction l with
  | nil => rfl
  | cons x rest ih =>
    obtain ⟨p, n⟩ := x
    have hx := h (p, n) (List.mem_cons_self _ _)
    rw [visitAll, visit_scan_clean w p n st hx.1 hx.2]
    exact ih fun e he => h e (List.mem_cons_of_mem _ he)

theorem visitAll_scan_first (w : World) (before after : List (Str × Node)) (p : Str)
    (n : Node) (st : Str × Str)
    (h : ∀ e ∈ before, e.2.accessError = false ∧ containsCfg w e = false)
    (hacc : n.accessError = false) (hcfg : containsCfg w (p, n) = true) :
    visitAll (ScanPyvenvCfg w) (before ++ (p, n) :: after) st =
      .returned ((n.name, w.abs p), some .EOF) := by
  rw [visitAll_append, visitAll_scan_clean w before st h]
  simp only [visitAll, visit_scan_match w p n st hacc hcfg]

theorem visitAll_scan_fatal (w : World) (before after : List (Str × Node)) (p : Str)
    (n : Node) (st : Str × Str)
    (h : ∀ e ∈ before, e.2.accessError = false ∧ containsCfg w e = false)
    (hacc : n.accessError = true) :
    ∃ msg, visitAll (ScanPyvenvCfg w) (before ++ (p, n) :: after) st = .fatal (.os msg) := by
  obtain ⟨msg, hmsg⟩ := visit_scan_error w p n st hacc
  refine ⟨msg, ?_⟩
  rw [visitAll_append, visitAll_scan_clean w before st h]
  simp only [visitAll, hmsg]

/-- The scan ends a visit of any sequence of entries with a nil error or
with `io.EOF`, never with another error value. -/
theorem visitAll_scan_err (w : World) (l : List (Str × Node)) (st s1 : Str × Str)
    (err : GoError) (h : visitAll (ScanPyvenvCfg w) l st = .returned (s1, some err)) :
    err = .EOF := by
  induction l generalizing st with
  | nil => simp [visitAll] at h
  | cons x rest ih =>
    obtain ⟨p, n⟩ := x
    by_cases hacc : n.accessError = true
    · obtain ⟨msg, hmsg⟩ := visit_scan_error w p n st hacc
      simp [visitAll, hmsg] at h
    · have hacc2 : n.accessError = false := by simpa using hacc
      by_cases hcfg : containsCfg w (p, n) = true
      · simp only [visitAll, visit_scan_match w p n st hacc2 hcfg] at h
        simp at h
        exact h.2.symm
      · have hcfg2 : containsCfg w (p, n) = false := by simpa using hcfg
        simp only [visitAll, visit_scan_clean w p n st hacc2 hcfg2] at h
        exact ih st h

/-- When the scan returns from a visit of a sequence of entries, either no
entry was an access error or a directory with `pyvenv.cfg` and the state is
unchanged, or the visit stopped at the first directory with `pyvenv.cfg`,
no access error before or at it, and the state is its name and absolute
path. -/
theorem visitAll_scan_returned (w : World) (l : List (Str × Node)) (st s1 : Str × Str)
    (err : Option GoError) (h : visitAll (ScanPyvenvCfg w) l st = .returned (s1, err)) :
    ((∀ e ∈ l, e.2.accessError = false ∧ containsCfg w e = false) ∧ s1 = st ∧ err = none) ∨
    (∃ before p d after, l = before ++ (p, d) :: after ∧
      (∀ e ∈ before, e.2.accessError = false ∧ containsCfg w e = false) ∧
      d.accessError = false ∧ containsCfg w (p, d) = true ∧
      s1 = (d.name, w.abs p) ∧ err = some .EOF) := by
  induction l generalizing st with
  | nil =>
    simp [visitAll] at h
    exact Or.inl ⟨by simp, h.1.symm, h.2.symm⟩
  | cons x rest ih =>
    obtain ⟨p, n⟩ := x
    by_cases hacc : n.accessError = true
    · obtain ⟨msg, hmsg⟩ := visit_scan_error w p n st hacc
      simp [visitAll, hmsg] at h
    · have hacc2 : n.accessError = false := by simpa using hacc
      by_cases hcfg : containsCfg w (p, n) = true
      · simp only [visitAll, visit_scan_match w p n st hacc2 hcfg] at h
        simp at h
        exact Or.inr ⟨[], p, n, rest, rfl, by simp, hacc2, hcfg, h.1.symm, h.2.symm⟩
      · have hcfg2 : containsCfg w (p, n) = false := by simpa using hcfg
        simp only [visitAll, visit_scan_clean w p n st hacc2 hcfg2] at h
        rcases ih st h with ⟨hall, hs, he⟩ | ⟨before, q, d, after, hl, hb, hd, hc, hs, he⟩
        · refine Or.inl ⟨?_, hs, he⟩
          intro e hmem
          rcases List.mem_cons.1 hmem with rfl | hmem
          · exact ⟨hacc2, hcfg2⟩
          · exact hall e hmem
        · refine Or.inr ⟨(p, n) :: before, q, d, after, by rw [hl]; rfl, ?_, hd, hc, hs, he⟩
          intro e hmem
          rcases List.mem_cons.1 hmem with rfl | hmem
          · exact ⟨hacc2, hcfg2⟩
          · exact hb e hmem

/-- The walk of `SearchVenv` is the scan called on the entries of the tree in
pre-order. -/
theorem Walk_scan (w : World) (root : Str) (st : Str × Str) :
    Walk w root (ScanPyvenvCfg w) st =
      visitAll (ScanPyvenvCfg w) (preorder w.join root (w.tree root)) st := by
  unfold Walk
  rw [walk_eq_visitAll w.join (ScanPyvenvCfg w) (ScanPyvenvCfg_ne_skip w)]
  rcases h : visitAll (ScanPyvenvCfg w) (preorder w.join root (w.tree root)) st
    with ⟨s1, _ | e⟩ | e | m
  · rfl
  · have := visitAll_scan_err w _ st s1 e h
    subst this
    rfl
  · rfl
  · rfl

/-! ## Lemmas on the locator -/

theorem GetVenFromEnvs_unset (w : World) (henv : w.getenv VirtualEnv = []) :
    GetVenFromEnvs w = .returned (false, [], []) := by
  simp [GetVenFromEnvs, henv, split]

theorem GetVenFromEnvs_set (w : World) (henv : w.getenv VirtualEnv ≠ []) :
    ∃ name, (split '/' (w.getenv VirtualEnv)).getLast? = some name ∧
      GetVenFromEnvs w = .returned (true, name, w.getenv VirtualEnv) := by
  cases h : (split '/' (w.getenv VirtualEnv)).getLast? with
  | none =>
    have : split '/' (w.getenv VirtualEnv) = [] := by simpa using h
    exact absurd this (split_ne_nil _ _)
  | some name =>
    refine ⟨name, rfl, ?_⟩
    unfold GetVenFromEnvs
    have hpos : (w.getenv VirtualEnv).length > 0 := List.length_pos.2 henv
    simp only [h, if_pos hpos]

/-- Without the variable and without a conventional directory, the locator
is its third strategy: the walk, whose nil error and whose `io.EOF` are both
turned into found=true. -/
theorem SearchVenv_scan (w : World) (root : Str) (henv : w.getenv VirtualEnv = [])
    (hdot : w.helperExists (w.join root ModuleDotVenv) = false)
    (hplain : w.helperExists (w.join root ModuleVenv) = false) :
    SearchVenv w root =
      (visitAll (ScanPyvenvCfg w) (preorder w.join root (w.tree root)) ([], [])).bind
        fun r => .returned (true, r.1.1, r.1.2) := by
  have hdef : HasDefaultVenv w root = (false, [], []) := by
    simp [HasDefaultVenv, HasDefaultVenv.loop, hdot, hplain]
  unfold SearchVenv
  rw [GetVenFromEnvs_unset w henv]
  simp only [Outcome.bind, hdef, Walk_scan]
  rcases h : visitAll (ScanPyvenvCfg w) (preorder w.join root (w.tree root)) ([], [])
    with ⟨s1, _ | e⟩ | e | m
  · simp [Outcome.bind]
  · have := visitAll_scan_err w _ _ s1 e h
    subst this
    simp [Outcome.bind]
  · simp [Outcome.bind]
  · simp [Outcome.bind]

/-! ## The locator (C1 to C5) -/

/-- Whenever the locator returns, found is true. -/
theorem SearchVenv_found (w : World) (root : Str) (found : Bool) (name path : Str)
    (h : SearchVenv w root = .returned (found, name, path)) : found = true := by
  by_cases henv : w.getenv VirtualEnv = []
  · by_cases hdot : w.helperExists (w.join root ModuleDotVenv) = true
    · simp [SearchVenv, GetVenFromEnvs_unset w henv, Outcome.bind, HasDefaultVenv,
        HasDefaultVenv.loop, hdot] at h
      exact h.1
    · by_cases hplain : w.helperExists (w.join root ModuleVenv) = true
      · simp [SearchVenv, GetVenFromEnvs_unset w henv, Outcome.bind, HasDefaultVenv,
          HasDefaultVenv.loop, hdot, hplain] at h
        exact h.1
      · rw [SearchVenv_scan w root henv (by simpa using hdot) (by simpa using hplain)] at h
        rcases hv : visitAll (ScanPyvenvCfg w) (preorder w.join root (w.tree root)) ([], [])
          with ⟨s1, e⟩ | e | m
        · rw [hv] at h
          simp [Outcome.bind] at h
          exact h.1
        · rw [hv] at h; simp [Outcome.bind] at h
        · rw [hv] at h; simp [Outcome.bind] at h
  · obtain ⟨n, _, hn⟩ := GetVenFromEnvs_set w henv
    simp [SearchVenv, hn, Outcome.bind] at h
    exact h.1

/-- An access error that the walk meets before any directory with
`pyvenv.cfg` ends the process through `log.Fatal`. -/
theorem SearchVenv_access_error (w : World) (root : Str)
    (before after : List (Str × Node)) (p : Str) (n : Node)
    (henv : w.getenv VirtualEnv = [])
    (hdot : w.helperExists (w.join root ModuleDotVenv) = false)
    (hplain : w.helperExists (w.join root ModuleVenv) = false)
    (horder : preorder w.join root (w.tree root) = before ++ (p, n) :: after)
    (hbefore : ∀ e ∈ before, e.2.accessError = false ∧ containsCfg w e = false)
    (hacc : n.accessError = true) :
    ∃ msg, SearchVenv w root = .fatal (.os msg) := by
  obtain ⟨msg, hmsg⟩ := visitAll_scan_fatal w before after p n ([], []) hbefore hacc
  refine ⟨msg, ?_⟩
  rw [SearchVenv_scan w root henv hdot hplain, horder, hmsg]
  rfl

/-- C1, the defect. For every project root where `VIRTUAL_ENV` is unset or
empty, neither `.venv` nor `venv` exists under the root, the walk meets no
access error and no directory of the tree contains `pyvenv.cfg`,
`SearchVenv` returns found=true with the empty name and the empty path: the
nil error of a finished walk is treated like the `io.EOF` of a match, and
found=false is never returned. -/
theorem C1_clean_walk_returns_found (w : World) (root : Str)
    (henv : w.getenv VirtualEnv = [])
    (hdot : w.helperExists (w.join root ".venv".toList) = false)
    (hplain : w.helperExists (w.join root "venv".toList) = false)
    (hclean : ∀ e ∈ preorder w.join root (w.tree root),
      e.2.accessError = false ∧ containsCfg w e = false) :
    SearchVenv w root = .returned (true, [], []) := by
  rw [SearchVenv_scan w root henv hdot hplain, visitAll_scan_clean w _ _ hclean]
  rfl

/-- C1 on the project `/proj` with `main.py` and `src/app.py`, no variable
and nothing else on disk: the result is (true, "", ""), not
(false, "", ""). -/
theorem C1_clean_walk_example :
    SearchVenv bareWorld projRoot = .returned (true, [], []) ∧
    SearchVenv bareWorld projRoot ≠ .returned (false, [], []) :=
  ⟨C1_clean_walk_returns_found bareWorld projRoot (by decide) (by decide) (by decide)
    (by decide), by decide⟩

/-- C2, counterexample. With `VIRTUAL_ENV` set to `/home/u/.venv/` the
locator returns found=true with the empty name and a non-empty path. -/
theorem C2_counterexample :
    SearchVenv (activeWorld "/home/u/.venv/".toList) projRoot =
      .returned (true, [], "/home/u/.venv/".toList) ∧
    ¬ (true = true ↔ (([] : Str) ≠ [] ∧ "/home/u/.venv/".toList ≠ [])) := by
  decide

/-- C2, amended. For every root path, every value of `VIRTUAL_ENV` and every
state of the file system in which `SearchVenv` returns (found, name, path),
found is true if and only if name and path are both non-empty, in each of
these cases.
(a) `VIRTUAL_ENV` is non-empty and does not end in "/": name is the last
piece of the value and path is the value. When the value ends in "/", found
is true and path is the value, but name is empty.
(b) `VIRTUAL_ENV` is empty and `.venv` or `venv` exists under the root: name
is `.venv` or `venv` and path is the root joined with name, which is not
empty because `filepath.Join` of a non-empty element is not.
(c) `VIRTUAL_ENV` is empty, neither directory exists and some directory of
the tree contains `pyvenv.cfg`: name and path are the base name and the
absolute path of the first such directory, not empty when that entry has a
name and `filepath.Abs` gives its path.
In every case, if name and path are both non-empty then found is true. -/
theorem C2_found_name_path (w : World) (root : Str) (found : Bool) (name path : Str)
    (h : SearchVenv w root = .returned (found, name, path)) :
    (w.getenv VirtualEnv ≠ [] →
      found = true ∧ (split '/' (w.getenv VirtualEnv)).getLast? = some name ∧
      path = w.getenv VirtualEnv ∧ path ≠ [] ∧
      (name ≠ [] ↔ (w.getenv VirtualEnv).getLast? ≠ some '/') ∧
      ((w.getenv VirtualEnv).getLast? ≠ some '/' →
        (found = true ↔ name ≠ [] ∧ path ≠ []))) ∧
    (w.getenv VirtualEnv = [] →
      (w.helperExists (w.join root ".venv".toList) = true ∨
        w.helperExists (w.join root "venv".toList) = true) →
      found = true ∧ (name = ".venv".toList ∨ name = "venv".toList) ∧
      path = w.join root name ∧
      ((∀ a b, b ≠ [] → w.join a b ≠ []) → (found = true ↔ name ≠ [] ∧ path ≠ []))) ∧
    (w.getenv VirtualEnv = [] →
      w.helperExists (w.join root ".venv".toList) = false →
      w.helperExists (w.join root "venv".toList) = false →
      (∃ e ∈ preorder w.join root (w.tree root), containsCfg w e = true) →
      found = true ∧
      ∃ before p d after,
        preorder w.join root (w.tree root) = before ++ (p, d) :: after ∧
        (∀ e ∈ before, containsCfg w e = false) ∧ containsCfg w (p, d) = true ∧
        name = d.name ∧ path = w.abs p ∧
        (d.name ≠ [] → w.abs p ≠ [] → (found = true ↔ name ≠ [] ∧ path ≠ []))) ∧
    (name ≠ [] ∧ path ≠ [] → found = true) := by
  have hfound := SearchVenv_found w root found name path h
  refine ⟨fun henv => ?_, fun henv hex => ?_, fun henv hdot hplain hsome => ?_,
    fun _ => hfound⟩
  · obtain ⟨n, hn1, hn2⟩ := GetVenFromEnvs_set w henv
    simp [SearchVenv, hn2, Outcome.bind] at h
    obtain ⟨-, rfl, rfl⟩ := h
    have hiff := not_congr (split_getLast_nil_iff '/' _ _ henv hn1)
    exact ⟨hfound, hn1, rfl, henv, hiff,
      fun hslash => ⟨fun _ => ⟨hiff.2 hslash, henv⟩, fun _ => hfound⟩⟩
  · by_cases hdot : w.helperExists (w.join root ModuleDotVenv) = true
    · simp [SearchVenv, GetVenFromEnvs_unset w henv, Outcome.bind, HasDefaultVenv,
        HasDefaultVenv.loop, hdot] at h
      obtain ⟨-, rfl, rfl⟩ := h
      exact ⟨hfound, Or.inl rfl, rfl,
        fun hjoin => ⟨fun _ => ⟨by decide, hjoin _ _ (by decide)⟩, fun _ => hfound⟩⟩
    · have hplain : w.helperExists (w.join root ModuleVenv) = true := by
        rcases hex with hex | hex
        · exact absurd hex hdot
        · exact hex
      simp [SearchVenv, GetVenFromEnvs_unset w henv, Outcome.bind, HasDefaultVenv,
        HasDefaultVenv.loop, hdot, hplain] at h
      obtain ⟨-, rfl, rfl⟩ := h
      exact ⟨hfound, Or.inr rfl, rfl,
        fun hjoin => ⟨fun _ => ⟨by decide, hjoin _ _ (by decide)⟩, fun _ => hfound⟩⟩
  · refine ⟨hfound, ?_⟩
    rw [SearchVenv_scan w root henv hdot hplain] at h
    rcases hv : visitAll (ScanPyvenvCfg w) (preorder w.join root (w.tree root)) ([], [])
      with ⟨s1, err⟩ | e | m
    · rw [hv] at h
      simp only [Outcome.bind, Outcome.returned.injEq, Prod.mk.injEq] at h
      obtain ⟨-, rfl, rfl⟩ := h
      rcases visitAll_scan_returned w _ _ _ err hv with
        ⟨hall, -, -⟩ | ⟨before, p, d, after, hl, hb, -, hc, hs, -⟩
      · obtain ⟨e, he, hcfg⟩ := hsome
        rw [(hall e he).2] at hcfg
        exact absurd hcfg (by decide)
      · have hname : s1.1 = d.name := congrArg Prod.fst hs
        have hpath : s1.2 = w.abs p := congrArg Prod.snd hs
        exact ⟨before, p, d, after, hl, fun e he => (hb e he).2, hc, hname, hpath,
          fun hn hp => ⟨fun _ => ⟨hname ▸ hn, hpath ▸ hp⟩, fun _ => hfound⟩⟩
    · rw [hv] at h; simp [Outcome.bind] at h
    · rw [hv] at h; simp [Outcome.bind] at h

/-- C2 in its three cases: `VIRTUAL_ENV=/home/u/.venv`; a project with
`/proj/.venv` and `/proj/venv`; a project whose only environment is
`/proj/env`. In each, found is true and name and path are both non-empty. -/
theorem C2_found_name_path_example :
    (SearchVenv (activeWorld "/home/u/.venv".toList) projRoot =
        .returned (true, ".venv".toList, "/home/u/.venv".toList) ∧
      (true = true ↔ ".venv".toList ≠ [] ∧ "/home/u/.venv".toList ≠ [])) ∧
    (SearchVenv bothVenvWorld projRoot =
        .returned (true, ".venv".toList, "/proj/.venv".toList) ∧
      (true = true ↔ ".venv".toList ≠ [] ∧ "/proj/.venv".toList ≠ [])) ∧
    (SearchVenv nestedEnvWorld projRoot =
        .returned (true, "env".toList, "/proj/env".toList) ∧
      true = true) :=
  ⟨⟨by decide,
    ((C2_found_name_path (activeWorld "/home/u/.venv".toList) projRoot true ".venv".toList
      "/home/u/.venv".toList (by decide)).1 (by decide)).2.2.2.2.2 (by decide)⟩,
   ⟨by decide,
    ((C2_found_name_path bothVenvWorld projRoot true ".venv".toList "/proj/.venv".toList
      (by decide)).2.1 (by decide) (Or.inl (by decide))).2.2.2
      (fun a b _ => by simp [bothVenvWorld, mkWorld, slashJoin])⟩,
   ⟨by decide,
    ((C2_found_name_path nestedEnvWorld projRoot true "env".toList "/proj/env".toList
      (by decide)).2.2.1 (by decide) (by decide) (by decide) (by decide)).1⟩⟩

/-- C3. For every non-empty value `v` of `VIRTUAL_ENV`, every root path and
every state of the file system (whatever exists, whatever the tree holds,
access errors included), `SearchVenv` returns found=true, name = the last
piece of `v` split on "/", and path = `v`; for `v = /home/u/.venv` that is
(true, `.venv`, `/home/u/.venv`). -/
theorem C3_active_environment (w : World) (root v : Str)
    (hv : w.getenv VirtualEnv = v) (hne : v ≠ []) :
    (∃ name, (split '/' v).getLast? = some name ∧
      SearchVenv w root = .returned (true, name, v)) ∧
    (v = "/home/u/.venv".toList →
      SearchVenv w root = .returned (true, ".venv".toList, "/home/u/.venv".toList)) := by
  subst hv
  obtain ⟨name, h1, h2⟩ := GetVenFromEnvs_set w hne
  have hs : SearchVenv w root = .returned (true, name, w.getenv VirtualEnv) := by
    simp [SearchVenv, h2, Outcome.bind]
  refine ⟨⟨name, h1, hs⟩, fun hval => ?_⟩
  rw [hval] at h1 hs
  have hname : name = ".venv".toList := by
    have : (split '/' "/home/u/.venv".toList).getLast? = some ".venv".toList := by decide
    rw [this] at h1
    exact (Option.some.inj h1).symm
  rw [hs, hname]

/-- C3 with `VIRTUAL_ENV=/home/u/.venv` over a project that has `.venv` on
disk and an unreadable directory in its tree: neither is looked at. -/
theorem C3_active_environment_example :
    SearchVenv activeOverDiskWorld projRoot =
      .returned (true, ".venv".toList, "/home/u/.venv".toList) :=
  (C3_active_environment activeOverDiskWorld projRoot "/home/u/.venv".toList
    (by decide) (by decide)).2 rfl

/-- C4, counterexample. No `VIRTUAL_ENV`, neither `.venv` nor `venv` under
the root, and exactly one directory of the tree, `/proj/env`, contains
`pyvenv.cfg`; the directory `/proj/a`, which the walk reaches first, cannot
be read, and `SearchVenv` ends in `log.Fatal` instead of returning. -/
theorem C4_counterexample :
    deniedWorld.getenv VirtualEnv = [] ∧
    deniedWorld.helperExists (deniedWorld.join projRoot ".venv".toList) = false ∧
    deniedWorld.helperExists (deniedWorld.join projRoot "venv".toList) = false ∧
    ((preorder deniedWorld.join projRoot (deniedWorld.tree projRoot)).filter
      (containsCfg deniedWorld)).map (fun e => (e.1, e.2.name)) =
      [("/proj/env".toList, "env".toList)] ∧
    SearchVenv deniedWorld projRoot = .fatal (.os "permission denied".toList) ∧
    SearchVenv deniedWorld projRoot ≠
      .returned (true, "env".toList, deniedWorld.abs "/proj/env".toList) := by
  decide

/-- C4, amended. For every root path where `VIRTUAL_ENV` is unset or empty,
neither `.venv` nor `venv` exists under the root, some directory of the tree
contains `pyvenv.cfg`, and the walk meets no access error up to and
including the first such directory in its traversal order, `SearchVenv`
returns found=true with the base name and the absolute path of that first
directory; entries later in the order do not change the result, so when
exactly one directory contains `pyvenv.cfg` it is that directory. -/
theorem C4_first_directory_with_cfg (w : World) (root : Str)
    (before after : List (Str × Node)) (p : Str) (d : Node)
    (henv : w.getenv VirtualEnv = [])
    (hdot : w.helperExists (w.join root ".venv".toList) = false)
    (hplain : w.helperExists (w.join root "venv".toList) = false)
    (horder : preorder w.join root (w.tree root) = before ++ (p, d) :: after)
    (hfirst : ∀ e ∈ before, containsCfg w e = false)
    (hcfg : containsCfg w (p, d) = true)
    (haccess : ∀ e ∈ before ++ [(p, d)], e.2.accessError = false) :
    SearchVenv w root = .returned (true, d.name, w.abs p) := by
  have hb : ∀ e ∈ before, e.2.accessError = false ∧ containsCfg w e = false :=
    fun e he => ⟨haccess e (List.mem_append_left _ he), hfirst e he⟩
  have hd : d.accessError = false :=
    haccess (p, d) (List.mem_append_right _ (List.mem_singleton_self _))
  rw [SearchVenv_scan w root henv hdot hplain, horder,
    visitAll_scan_first w before after p d _ hb hd hcfg]
  rfl

/-- C4 on a project whose only environment is `/proj/env`, met after the
directory `/proj/a`: the result is (true, `env`, `/proj/env`). -/
theorem C4_first_directory_example :
    SearchVenv nestedEnvWorld projRoot =
      .returned (true, "env".toList, "/proj/env".toList) :=
  C4_first_directory_with_cfg nestedEnvWorld projRoot
    [("/proj".toList, envTree), ("/proj/a".toList, .dir "a".toList [.file "x.py".toList]),
      ("/proj/a/x.py".toList, .file "x.py".toList)]
    [("/proj/env/pyvenv.cfg".toList, .file "pyvenv.cfg".toList)]
    "/proj/env".toList (.dir "env".toList [.file "pyvenv.cfg".toList])
    (by decide) (by decide) (by decide) rfl (by decide) (by decide) (by decide)

/-- C5. For every root path where `VIRTUAL_ENV` is unset or empty: if `.venv`
exists under the root, `SearchVenv` returns (true, `.venv`, root joined with
`.venv`), whether or not `venv` exists as well; if `.venv` does not exist
and `venv` does, it returns (true, `venv`, root joined with `venv`). -/
theorem C5_conventional_directories (w : World) (root : Str)
    (henv : w.getenv VirtualEnv = []) :
    (w.helperExists (w.join root ".venv".toList) = true →
      SearchVenv w root = .returned (true, ".venv".toList, w.join root ".venv".toList)) ∧
    (w.helperExists (w.join root ".venv".toList) = false →
      w.helperExists (w.join root "venv".toList) = true →
      SearchVenv w root = .returned (true, "venv".toList, w.join root "venv".toList)) := by
  constructor
  · intro hdot
    have hdot2 : w.helperExists (w.join root ModuleDotVenv) = true := hdot
    simp [SearchVenv, GetVenFromEnvs_unset w henv, Outcome.bind, HasDefaultVenv,
      HasDefaultVenv.loop, hdot2]
    exact ⟨rfl, rfl⟩
  · intro hdot hplain
    have hdot2 : w.helperExists (w.join root ModuleDotVenv) = false := hdot
    have hplain2 : w.helperExists (w.join root ModuleVenv) = true := hplain
    simp [SearchVenv, GetVenFromEnvs_unset w henv, Outcome.bind, HasDefaultVenv,
      HasDefaultVenv.loop, hdot2, hplain2]
    exact ⟨rfl, rfl⟩

/-- C5 on a project with both `/proj/.venv` and `/proj/venv` (the hidden one
is reported) and on a project with `/proj/venv` alone. -/
theorem C5_conventional_directories_example :
    SearchVenv bothVenvWorld projRoot =
      .returned (true, ".venv".toList, "/proj/.venv".toList) ∧
    bothVenvWorld.helperExists "/proj/venv".toList = true ∧
    SearchVenv plainVenvWorld projRoot =
      .returned (true, "venv".toList, "/proj/venv".toList) :=
  ⟨(C5_conventional_directories bothVenvWorld projRoot (by decide)).1 (by decide),
   by decide,
   (C5_conventional_directories plainVenvWorld projRoot (by decide)).2 (by decide)
     (by decide)⟩

/-! ## The requirement gate (C6) -/

/-- C6. For every root flag and every manifest text, with `n` the number of
modules `LoadModules` returns for the text, `IsRequirementMeet root data` is
true if and only if (root and `n = 1`) or (not root and `n > 3`); so a root
with 0 or at least 2 modules is not met, a non-root with 3 modules is not
met, and a non-root with 4 modules is met. -/
theorem C6_IsRequirementMeet_iff {Module : Type} (LoadModules : Str → List Module)
    (root : Bool) (data : Str) :
    (IsRequirementMeet LoadModules root data = true ↔
      (root = true ∧ (LoadModules data).length = 1) ∨
      (root = false ∧ (LoadModules data).length > 3)) ∧
    (root = true → ((LoadModules data).length = 0 ∨ 2 ≤ (LoadModules data).length) →
      IsRequirementMeet LoadModules root data = false) ∧
    (root = false → (LoadModules data).length = 3 →
      IsRequirementMeet LoadModules root data = false) ∧
    (root = false → (LoadModules data).length = 4 →
      IsRequirementMeet LoadModules root data = true) := by
  refine ⟨?_, ?_, ?_, ?_⟩
  · cases root <;> simp [IsRequirementMeet]
  · rintro rfl h
    simp only [IsRequirementMeet, Bool.true_and, Bool.not_true, Bool.false_and]
    rcases h with h | h <;> simp <;> omega
  · rintro rfl h
    simp [IsRequirementMeet, h]
  · rintro rfl h
    simp [IsRequirementMeet, h]

/-- C6 at concrete loaders: a root manifest with one module is met and with
two is not; a dependency manifest with three modules is not met and with four
is. -/
theorem C6_IsRequirementMeet_examples :
    IsRequirementMeet (fun _ => [1]) true [] = true ∧
    IsRequirementMeet (fun _ => [1, 2]) true [] = false ∧
    IsRequirementMeet (fun _ => [1, 2, 3]) false [] = false ∧
    IsRequirementMeet (fun _ => [1, 2, 3, 4]) false [] = true :=
  ⟨((C6_IsRequirementMeet_iff (fun _ => [1]) true []).1).2 (Or.inl ⟨rfl, rfl⟩),
   (C6_IsRequirementMeet_iff (fun _ => [1, 2]) true []).2.1 rfl (Or.inr (by decide)),
   (C6_IsRequirementMeet_iff (fun _ => [1, 2, 3]) false []).2.2.1 rfl rfl,
   (C6_IsRequirementMeet_iff (fun _ => [1, 2, 3, 4]) false []).2.2.2 rfl rfl⟩

/-! ## The checksum resolver (C7 to C10) -/

/-- C7, the defect. For every package name, URL and lookup, and every wheel
metadata file that exists, opens and has a line that is "tag" in some letter
case without a colon (no such line before it), `getPackageChecksum` panics
inside the tag extraction, where `res[1]` is out of range: the remote lookup
is not called and nothing is returned to the caller. -/
theorem C7_getPackageChecksum_bare_tag {CheckSum : Type} (w : World)
    (lookup : Str → Str → Bool → Str → CheckSum) (name url path : Str)
    (before after : List Str) (t : Str)
    (hex : w.helperExists path = true)
    (hopen : w.openLines path = some (before ++ t :: after))
    (hbefore : ∀ x ∈ before, isTagKey x = true → x.contains ':' = true)
    (hc : t.contains ':' = false) (hk : isTagKey t = true) :
    getPackageChecksum w lookup name url path =
      .panic "index out of range [1] with length 1".toList := by
  simp only [getPackageChecksum, getWheelDistributionLastTag_readable w path _ hex hopen,
    scanLoop_bare before after t [] hbefore hc hk, Outcome.bind]

/-- C7 on a wheel file whose lines are `Wheel-Version: 1.0` and `tag`: the
checksum of `requests` is not resolved, the call panics. -/
theorem C7_getPackageChecksum_bare_tag_example :
    getPackageChecksum (wheelWorld ["Wheel-Version: 1.0".toList, "tag".toList])
        (fun _ _ flag tag => (flag, tag)) "requests".toList
        "https://pypi.org/pypi/requests/json".toList wheelPath =
      .panic "index out of range [1] with length 1".toList :=
  C7_getPackageChecksum_bare_tag (wheelWorld ["Wheel-Version: 1.0".toList, "tag".toList])
    (fun _ _ flag tag => (flag, tag)) "requests".toList
    "https://pypi.org/pypi/requests/json".toList wheelPath
    ["Wheel-Version: 1.0".toList] [] "tag".toList (by decide) rfl (by decide) (by decide)
    (by decide)

/-- The two fallbacks of `getPackageChecksum` at concrete inputs: a wheel
file that does not exist and one that exists but cannot be opened both lead
to one lookup with the flag false and the empty tag, whose result (here the
flag and the tag it was given) is returned. -/
theorem getPackageChecksum_fallback_examples :
    getPackageChecksum noWheelWorld (fun _ _ flag tag => (flag, tag)) "requests".toList
        "https://pypi.org/pypi/requests/json".toList wheelPath =
      .returned ((false, []),
        [⟨"requests".toList, "https://pypi.org/pypi/requests/json".toList, false, []⟩]) ∧
    getPackageChecksum lockedWheelWorld (fun _ _ flag tag => (flag, tag)) "requests".toList
        "https://pypi.org/pypi/requests/json".toList wheelPath =
      .returned ((false, []),
        [⟨"requests".toList, "https://pypi.org/pypi/requests/json".toList, false, []⟩]) :=
  ⟨getPackageChecksum_missing _ _ _ _ _ (by decide),
   getPackageChecksum_unopenable _ _ _ _ _ (by decide) (by decide)⟩

/-- C8, counterexample. In the file with the lines `Tag: 1.0-abc` and
`tag: 2.0:xyz` the last line is a tag line whose value, trimmed, is
`2.0:xyz`; the code returns `2.0`. -/
theorem C8_counterexample :
    (["Tag: 1.0-abc".toList, "tag: 2.0:xyz".toList].filter isTagLine).getLast? =
      some "tag: 2.0:xyz".toList ∧
    TrimSpace (afterFirstColon "tag: 2.0:xyz".toList) = "2.0:xyz".toList ∧
    getWheelDistributionLastTag
      (wheelWorld ["Tag: 1.0-abc".toList, "tag: 2.0:xyz".toList]) wheelPath =
      .returned ("2.0".toList, none) ∧
    getWheelDistributionLastTag
      (wheelWorld ["Tag: 1.0-abc".toList, "tag: 2.0:xyz".toList]) wheelPath ≠
      .returned ("2.0:xyz".toList, none) := by
  decide

/-- C8, amended. For every wheel metadata file that exists and opens, in
which no line without a colon has the key "tag" in any letter case, and which
has at least one line `key: value` whose key is "tag" in some letter case,
`getWheelDistributionLastTag` returns, with no error, the trimmed text
between the first colon and the next colon (or the end of the line) of the
last such line. -/
theorem C8_last_tag_line (w : World) (path : Str) (texts : List Str) (l : Str)
    (hex : w.helperExists path = true) (hopen : w.openLines path = some texts)
    (hbare : ∀ t ∈ texts, isTagKey t = true → t.contains ':' = true)
    (hlast : (texts.filter isTagLine).getLast? = some l) :
    getWheelDistributionLastTag w path = .returned (TrimSpace (secondField l), none) := by
  rw [getWheelDistributionLastTag_readable w path texts hex hopen, scanLoop_eq texts hbare,
    hlast]
  rfl

/-- C8 on the lines `Tag: 1.0-abc` then `tag: 2.0-xyz`: the result is
`2.0-xyz`, with no error. -/
theorem C8_last_tag_line_example :
    getWheelDistributionLastTag
      (wheelWorld ["Tag: 1.0-abc".toList, "tag: 2.0-xyz".toList]) wheelPath =
      .returned ("2.0-xyz".toList, none) :=
  C8_last_tag_line (wheelWorld ["Tag: 1.0-abc".toList, "tag: 2.0-xyz".toList]) wheelPath
    ["Tag: 1.0-abc".toList, "tag: 2.0-xyz".toList] "tag: 2.0-xyz".toList
    (by decide) rfl (by decide) (by decide)

/-- C9, counterexample. On the single line `tag: a:b` everything after the
first colon, trimmed, is `a:b`; the candidate tag the code takes is `a`, and
so is the tag of the file. -/
theorem C9_counterexample :
    isTagLine "tag: a:b".toList = true ∧
    TrimSpace (afterFirstColon "tag: a:b".toList) = "a:b".toList ∧
    scanText [] "tag: a:b".toList = .returned "a".toList ∧
    getWheelDistributionLastTag (wheelWorld ["tag: a:b".toList]) wheelPath =
      .returned ("a".toList, none) ∧
    getWheelDistributionLastTag (wheelWorld ["tag: a:b".toList]) wheelPath ≠
      .returned ("a:b".toList, none) := by
  decide

/-- C9, amended. The line is split on every colon: for every line with a
colon whose text before the first colon is "tag" in some letter case, the
second piece of the split is the text between the first colon and the next
colon (or the end of the line), and the candidate tag is that text, trimmed
of surrounding white space, whatever the tag was before. -/
theorem C9_candidate_is_second_field (lasttag text : Str)
    (hc : text.contains ':' = true) (hk : isTagKey text = true) :
    (split ':' text)[1]? = some ((afterFirstColon text).takeWhile (· ≠ ':')) ∧
    scanText lasttag text =
      .returned (TrimSpace ((afterFirstColon text).takeWhile (· ≠ ':'))) := by
  have hmem : ':' ∈ text := by simpa using hc
  refine ⟨?_, scanText_tag lasttag text hc hk⟩
  rw [split_second, if_pos hmem]
  rfl

/-- C9 on the line `tag: a:b`: the candidate tag is `a`. -/
theorem C9_candidate_example :
    (split ':' "tag: a:b".toList)[1]? = some " a".toList ∧
    scanText "old".toList "tag: a:b".toList = .returned "a".toList :=
  C9_candidate_is_second_field "old".toList "tag: a:b".toList (by decide) (by decide)

/-- C10, the defect. For every wheel metadata file that exists and opens and
has a line that is "tag" in some letter case without a colon (no such line
before it), `getWheelDistributionLastTag` panics: the split of that line has
one piece and `res[1]` is out of range, so no `(tag, nil)` comes back. -/
theorem C10_bare_tag_panics (w : World) (path : Str) (before after : List Str) (t : Str)
    (hex : w.helperExists path = true)
    (hopen : w.openLines path = some (before ++ t :: after))
    (hbefore : ∀ x ∈ before, isTagKey x = true → x.contains ':' = true)
    (hc : t.contains ':' = false) (hk : isTagKey t = true) :
    getWheelDistributionLastTag w path =
      .panic "index out of range [1] with length 1".toList := by
  rw [getWheelDistributionLastTag_readable w path _ hex hopen,
    scanLoop_bare before after t [] hbefore hc hk]
  rfl

/-- C10 on the file whose only line is `TAG`, and on a file where the line
`Tag` stands between `Wheel-Version: 1.0` and `Tag: py3`. -/
theorem C10_bare_tag_example :
    getWheelDistributionLastTag (wheelWorld ["TAG".toList]) wheelPath =
      .panic "index out of range [1] with length 1".toList ∧
    getWheelDistributionLastTag
      (wheelWorld ["Wheel-Version: 1.0".toList, "Tag".toList, "Tag: py3".toList]) wheelPath =
      .panic "index out of range [1] with length 1".toList :=
  ⟨C10_bare_tag_panics (wheelWorld ["TAG".toList]) wheelPath [] [] "TAG".toList
     (by decide) rfl (by decide) (by decide) (by decide),
   C10_bare_tag_panics
     (wheelWorld ["Wheel-Version: 1.0".toList, "Tag".toList, "Tag: py3".toList]) wheelPath
     ["Wheel-Version: 1.0".toList] ["Tag: py3".toList] "Tag".toList
     (by decide) rfl (by decide) (by decide) (by decide)⟩

end Worker
